import Mathlib

/-!
Shallow embedding of the pdf-merger-service backend (src/backend/server.js)
and proofs of the specification's claims about it.

The embedding models:
  * `path.extname` / `.toLowerCase()` / `String.prototype.startsWith` as
    character-list functions (filenames are ASCII here);
  * the JavaScript numeric expression in `imageToPdf`
    (`metadata.width * 72 / metadata.density || 72`) with explicit
    NaN/Infinity semantics, since `metadata.density` may be `undefined`;
  * the `/api/merge` handler as a pure function from a request (plus an
    environment carrying the generated output id and a removal-failure
    oracle) to a response together with a trace of storage events.
-/

namespace PdfMerger

/-- Model of `String.prototype.startsWith` (character prefix test). -/
def jsStartsWith (s pre : String) : Bool :=
  pre.data.isPrefixOf s.data

/-- ASCII lower-casing of one character, as `String.prototype.toLowerCase`
acts on ASCII letters. -/
def lowerChar (c : Char) : Char :=
  if 'A' ≤ c ∧ c ≤ 'Z' then Char.ofNat (c.toNat + 32) else c

/-- Model of `.toLowerCase()` on ASCII strings. -/
def strToLower (s : String) : String :=
  ⟨s.data.map lowerChar⟩

/-- Characters of the basename of a path: everything after the last slash. -/
def basenameChars (p : List Char) : List Char :=
  ((p.reverse).takeWhile (fun c => c != '/')).reverse

/-- Model of Node's `path.extname`: the suffix of the basename starting at
its last dot, or empty when the basename has no dot or its only dot is the
leading character (hidden files such as `.gitignore` have no extension).
This matches Node for every basename that does not consist solely of dots. -/
def extnameChars (p : List Char) : List Char :=
  if ((basenameChars p).reverse.takeWhile (fun c => c != '.')).length =
      (basenameChars p).reverse.length then []
  else if ((basenameChars p).reverse.takeWhile (fun c => c != '.')).length + 1 =
      (basenameChars p).reverse.length then []
  else '.' :: ((basenameChars p).reverse.takeWhile (fun c => c != '.')).reverse

/-- Model of `path.extname` on strings. -/
def extname (s : String) : String :=
  ⟨extnameChars s.data⟩

/-! JavaScript number semantics needed for the page-size expression in
`imageToPdf`.  Only non-negative magnitudes occur there (image dimensions
and DPI densities), so the model carries NaN, +Infinity and exact
rationals. -/

/-- JavaScript number for the page-size arithmetic: NaN, +Infinity, or an
exact (non-negative in our uses) rational value. -/
inductive JSNum where
  | nan : JSNum
  | inf : JSNum
  | val : ℚ → JSNum
deriving DecidableEq

/-- JavaScript multiplication on the fragment of numbers we model. -/
def jsMul : JSNum → JSNum → JSNum
  | .nan, _ => .nan
  | _, .nan => .nan
  | .inf, .inf => .inf
  | .inf, .val q => if q = 0 then .nan else .inf
  | .val q, .inf => if q = 0 then .nan else .inf
  | .val a, .val b => .val (a * b)

/-- JavaScript division on the fragment of numbers we model
(`x / 0` is Infinity for positive `x`, `0 / 0` is NaN). -/
def jsDiv : JSNum → JSNum → JSNum
  | .nan, _ => .nan
  | _, .nan => .nan
  | .inf, .inf => .nan
  | .inf, .val _ => .inf
  | .val _, .inf => .val 0
  | .val a, .val b => if b = 0 then (if a = 0 then .nan else .inf) else .val (a / b)

/-- JavaScript truthiness of a number: NaN and 0 are falsy. -/
def truthy : JSNum → Bool
  | .nan => false
  | .inf => true
  | .val q => if q = 0 then false else true

/-- JavaScript `a || b`. -/
def jsOr (a b : JSNum) : JSNum :=
  if truthy a then a else b

/-- Result of `sharp(imageBuffer).metadata()`: pixel dimensions plus the
optional DPI density; `density` is absent (`undefined`) when the image
carries no DPI metadata. -/
structure ImageMeta where
  width : ℚ
  height : ℚ
  density : Option ℚ
deriving DecidableEq

/-- An `undefined`-able density used in arithmetic: `undefined` coerces
to NaN in JavaScript arithmetic. -/
def densityNum : Option ℚ → JSNum
  | none => .nan
  | some d => .val d

/-- One page dimension as computed on line 63 of server.js:
`metadata.width * 72 / metadata.density || 72` (and likewise for the
height).  Note `*` and `/` bind tighter than `||`. -/
def pageDim (px : ℚ) (density : Option ℚ) : JSNum :=
  jsOr (jsDiv (jsMul (.val px) (.val 72)) (densityNum density)) (.val 72)

/-- Embedding codec chosen by `imageToPdf`. -/
inductive Codec where
  | png : Codec
  | jpg : Codec
deriving DecidableEq

/-- The single page produced by `imageToPdf`: the page box set from
`pageDim`, the image drawn at the origin with the page's own size
(`page.getSize()`), and the codec chosen from the path's extension. -/
structure ImagePage where
  pageWidth : JSNum
  pageHeight : JSNum
  drawX : ℚ
  drawY : ℚ
  drawWidth : JSNum
  drawHeight : JSNum
  codec : Codec
deriving DecidableEq

/-- Model of `imageToPdf` (server.js lines 57-81): reading the image at
`path` with metadata `meta`, it creates a one-page PDF whose page size is
`pageDim` of each dimension, embeds as PNG exactly when the lower-cased
extension of the path is `.png` (JPEG otherwise), and draws the image at
x = 0, y = 0 with the page's full width and height. -/
def imageToPdf (path : String) (meta : ImageMeta) : ImagePage :=
  let w := pageDim meta.width meta.density
  let h := pageDim meta.height meta.density
  { pageWidth := w
    pageHeight := h
    drawX := 0
    drawY := 0
    drawWidth := w
    drawHeight := h
    codec := if strToLower (extname path) = ".png" then Codec.png else Codec.jpg }

/-! Data model of the `/api/merge` handler. -/

/-- Content of an uploaded file as the merge loop will see it:
a PDF that `PDFDocument.load` parses (with its page list, page content
abstracted to a number), a raster image that `sharp` can read and the
chosen codec can embed, or bytes on which the branch's parsing or
embedding step throws. -/
inductive FileContent where
  | pdf : List Nat → FileContent
  | image : ImageMeta → FileContent
  | corrupt : FileContent
deriving DecidableEq

/-- A multer upload record as used by the handler: the stored filename
(`uuid-originalname`), the client's original filename, the declared MIME
type, the temp-file path and the file's content. -/
structure UploadedFile where
  filename : String
  originalname : String
  mimetype : String
  path : String
  content : FileContent
deriving DecidableEq

/-- Outcome of `JSON.parse(order || '[]')` followed by `.map`:
the raw `order` body field is either absent/empty (parsed as `[]`),
a string on which `JSON.parse` throws a SyntaxError, JSON that parses
to a non-array value (on which `.map` then throws a TypeError), or a
JSON array of identifier strings. -/
inductive OrderField where
  | absent : OrderField
  | malformed : String → OrderField
  | nonArray : OrderField
  | ids : List String → OrderField

/-- A merge request: the `order` body field and the uploaded files in
receipt order (`req.files`; a missing field is the empty list). -/
structure MergeRequest where
  order : OrderField
  files : List UploadedFile

/-- Errors thrown inside the handler's try block. -/
inductive JsError where
  | jsonError : String → JsError
  | typeError : JsError
  | processFailed : String → JsError
deriving DecidableEq

/-- The `error.message` the catch block serializes (all thrown errors
here have non-empty messages, so the `|| 'Failed to merge files'`
fallback never fires). -/
def errorMessage : JsError → String
  | .jsonError s => "Unexpected token in JSON: " ++ s
  | .typeError => "orderArray.map is not a function"
  | .processFailed n => "Failed to process " ++ n

/-- Lines 93 and 96: the parsed order array, or the error thrown by
`JSON.parse` (malformed JSON) or by `.map` (non-array JSON). -/
def parseOrderArray : OrderField → Except JsError (List String)
  | .absent => .ok []
  | .malformed s => .error (.jsonError s)
  | .nonArray => .error .typeError
  | .ids l => .ok l

/-- Line 96's predicate: `f.filename.startsWith(id)`. -/
def matchesId (f : UploadedFile) (id : String) : Bool :=
  jsStartsWith f.filename id

/-- Line 96: `orderArray.map(id => files.find(f => f.filename.startsWith(id))).filter(Boolean)`. -/
def sortedFiles (order : List String) (files : List UploadedFile) : List UploadedFile :=
  (order.map (fun id => files.find? (fun f => matchesId f id))).filterMap (fun x => x)

/-- Line 99's predicate: `orderArray.some(id => f.filename.startsWith(id))`. -/
def isMatched (order : List String) (f : UploadedFile) : Bool :=
  order.any (fun id => matchesId f id)

/-- Line 99: files not referenced by any order identifier, in receipt order. -/
def remainingFiles (order : List String) (files : List UploadedFile) : List UploadedFile :=
  files.filter (fun f => !(isMatched order f))

/-- Line 100: `[...sortedFiles, ...remainingFiles]` — the resolved sequence. -/
def allFiles (order : List String) (files : List UploadedFile) : List UploadedFile :=
  sortedFiles order files ++ remainingFiles order files

/-- The ordering-resolution stage as a whole: parse the descriptor, then
build the resolved sequence (an error from parsing propagates to the
handler's catch block). -/
def resolveOrdering (order : OrderField) (files : List UploadedFile) :
    Except JsError (List UploadedFile) :=
  match parseOrderArray order with
  | .error e => .error e
  | .ok ids => .ok (allFiles ids files)

/-- Which branch of the merge loop a file takes. -/
inductive Branch where
  | pdf : Branch
  | image : Branch
deriving DecidableEq

/-- Line 107/110: the branch is chosen by the lower-cased extension of the
original filename. -/
def branchOf (f : UploadedFile) : Branch :=
  if strToLower (extname f.originalname) = ".pdf" then Branch.pdf else Branch.image

/-- Line 66: the embedding codec chosen inside `imageToPdf` from the
lower-cased extension of the temp-file path. -/
def embedCodecOf (path : String) : Codec :=
  if strToLower (extname path) = ".png" then Codec.png else Codec.jpg

/-- A page of the merged document: either a page copied from an input PDF
(content preserved), or the single normalized page of an image. -/
inductive Page where
  | fromPdf : Nat → Page
  | fromImage : ImagePage → Page
deriving DecidableEq

/-- Lines 109-126: process one file of the resolved sequence.  The PDF
branch loads the file and copies all its pages in order; the image branch
normalizes it via `imageToPdf` and copies that single page.  Any throw in
the branch is rethrown as `Failed to process ` + the original filename. -/
def processFile (f : UploadedFile) : Except JsError (List Page) :=
  match branchOf f with
  | .pdf =>
    match f.content with
    | .pdf ps => .ok (ps.map Page.fromPdf)
    | _ => .error (.processFailed f.originalname)
  | .image =>
    match f.content with
    | .image m => .ok [Page.fromImage (imageToPdf f.path m)]
    | _ => .error (.processFailed f.originalname)

/-- Lines 105-127: the merge loop over the resolved sequence, appending
each file's pages to the merged document and failing fast at the first
file whose processing throws. -/
def mergeLoop : List UploadedFile → Except JsError (List Page)
  | [] => .ok []
  | f :: fs =>
    match processFile f with
    | .error e => .error e
    | .ok ps =>
      match mergeLoop fs with
      | .error e => .error e
      | .ok rest => .ok (ps ++ rest)

/-- Storage events issued by the handler, in order: a best-effort removal
attempt (`fs.remove(..).catch(..)`, with the underlying removal's success
recorded), a write of the merged output, or the delayed removal scheduled
for the output after the download response. -/
inductive StoreEvent where
  | removeAttempt : String → Bool → StoreEvent
  | write : String → StoreEvent
  | removeScheduled : String → StoreEvent
deriving DecidableEq

/-- The shape of a storage event with the removal outcome erased. -/
inductive EventShape where
  | attempt : String → EventShape
  | write : String → EventShape
  | scheduled : String → EventShape
deriving DecidableEq

/-- Forget whether a removal attempt succeeded. -/
def shapeOf : StoreEvent → EventShape
  | .removeAttempt p _ => .attempt p
  | .write p => .write p
  | .removeScheduled p => .scheduled p

/-- Lines 137-139 and 156-158: a best-effort cleanup loop — one removal
attempt per file, each wrapped in `.catch(console.error)` so a failing
removal is logged and the loop continues. -/
def cleanupLoop (removeFails : String → Bool) (files : List UploadedFile) :
    List StoreEvent :=
  files.map (fun f => StoreEvent.removeAttempt f.path (!(removeFails f.path)))

/-- Per-request environment: the `uuidv4()` drawn for the output filename
and an oracle saying which `fs.remove` calls fail. -/
structure Env where
  outputId : String
  removeFails : String → Bool

/-- The uploads directory (`path.join(__dirname, 'uploads')`), modelled
as a fixed relative root. -/
def uploadsDir : String := "uploads"

/-- The handler's response: 400 with `No files uploaded`, a streamed
download of the merged output (carrying its page sequence), or the catch
block's 500 with the thrown error's message. -/
inductive Response where
  | badRequest : String → Response
  | success : String → List Page → Response
  | serverError : String → Response
deriving DecidableEq

/-- Lines 84-162: the `/api/merge` handler.  Empty (or missing) file list
returns 400 at once; a throw from order parsing or the merge loop reaches
the catch block, which removes every accepted upload best-effort and
responds 500 with the error's message; on success the merged output is
written, every resolved-sequence temp file is removed best-effort, and
removal of the output is scheduled after the download response. -/
def handleMerge (env : Env) (req : MergeRequest) : Response × List StoreEvent :=
  if req.files.isEmpty then
    (Response.badRequest "No files uploaded", [])
  else
    match parseOrderArray req.order with
    | .error e =>
      (Response.serverError (errorMessage e), cleanupLoop env.removeFails req.files)
    | .ok ids =>
      match mergeLoop (allFiles ids req.files) with
      | .error e =>
        (Response.serverError (errorMessage e), cleanupLoop env.removeFails req.files)
      | .ok pages =>
        let outputPath := uploadsDir ++ "/merged-" ++ env.outputId ++ ".pdf"
        (Response.success outputPath pages,
          StoreEvent.write outputPath ::
            (cleanupLoop env.removeFails (allFiles ids req.files) ++
              [StoreEvent.removeScheduled outputPath]))

/-- A file whose content matches its dispatch branch, so its processing
succeeds. -/
def wellFormed (f : UploadedFile) : Bool :=
  match branchOf f, f.content with
  | .pdf, .pdf _ => true
  | .image, .image _ => true
  | _, _ => false

/-- The pages a file contributes to the merged document when processing
succeeds: all its own pages for a PDF, one normalized page for an image. -/
def contributedRun (f : UploadedFile) : List Page :=
  match f.content with
  | .pdf ps => ps.map Page.fromPdf
  | .image m => [Page.fromImage (imageToPdf f.path m)]
  | .corrupt => []

/-- The page count an input contributes: its own page count for a PDF,
one for an image. -/
def inputPageCount (f : UploadedFile) : Nat :=
  match f.content with
  | .pdf ps => ps.length
  | .image _ => 1
  | .corrupt => 0

/-- The page sequence carried by a successful response. -/
def pagesOf : Response → Option (List Page)
  | .success _ ps => some ps
  | _ => none

/-- Whether an `Except` computation succeeded. -/
def exceptOk {ε α : Type} : Except ε α → Bool
  | .ok _ => true
  | .error _ => false

instance {ε α : Type} [DecidableEq ε] [DecidableEq α] : DecidableEq (Except ε α) := fun x y =>
  match x, y with
  | .error a, .error b =>
    if h : a = b then .isTrue (by rw [h])
    else .isFalse (fun hc => h (by injection hc))
  | .error _, .ok _ => .isFalse (fun hc => Except.noConfusion hc)
  | .ok _, .error _ => .isFalse (fun hc => Except.noConfusion hc)
  | .ok a, .ok b =>
    if h : a = b then .isTrue (by rw [h])
    else .isFalse (fun hc => h (by injection hc))

/-! Concrete fixtures used by witnesses and counterexamples.  The pair
`fileA` / `fileShadowed` has storage identifiers `aa-…` and `aab-…`, so
the single descriptor entry `aa` prefix-matches both of them. -/

/-- A well-formed one-page PDF upload whose storage identifier starts
with `aa`. -/
def fileA : UploadedFile :=
  ⟨"aa-x.pdf", "x.pdf", "application/pdf", "uploads/temp/aa-x.pdf", .pdf [10]⟩

/-- A well-formed two-page PDF upload whose storage identifier starts
with `aab` (and therefore also with `aa`). -/
def fileShadowed : UploadedFile :=
  ⟨"aab-y.pdf", "y.pdf", "application/pdf", "uploads/temp/aab-y.pdf", .pdf [20, 21]⟩

/-- A 200 by 100 pixel PNG upload whose metadata carries no DPI density. -/
def fileImage : UploadedFile :=
  ⟨"cc-scan.png", "scan.png", "image/png", "uploads/temp/cc-scan.png", .image ⟨200, 100, none⟩⟩

/-- An upload with a `.pdf` name whose bytes `PDFDocument.load` rejects. -/
def fileCorrupt : UploadedFile :=
  ⟨"dd-bad.pdf", "bad.pdf", "application/pdf", "uploads/temp/dd-bad.pdf", .corrupt⟩

/-- An environment drawing the output id `U` with no removal failures. -/
def envU : Env :=
  ⟨"U", fun _ => false⟩

/-- The request whose descriptor entry `aa` prefix-matches both uploads. -/
def reqShadow : MergeRequest :=
  ⟨.ids ["aa"], [fileA, fileShadowed]⟩

/-! Theorems.  Helper lemmas first, then one theorem per claim. -/

/-- Erasing the removal outcomes, a cleanup loop is one attempt per file,
in order, whatever the failure oracle says. -/
theorem cleanupLoop_shape (removeFails : String → Bool) (files : List UploadedFile) :
    (cleanupLoop removeFails files).map shapeOf =
      files.map (fun f => EventShape.attempt f.path) := by
  simp [cleanupLoop, List.map_map, Function.comp, shapeOf]

/-- Claim C7: an empty (or missing) uploaded-file list is rejected with
the 400 response `No files uploaded` before any merge or storage activity
(the event trace is empty). -/
theorem empty_upload_list_rejected_400 (env : Env) (order : OrderField) :
    handleMerge env ⟨order, []⟩ = (Response.badRequest "No files uploaded", []) :=
  rfl

/-- Claim C9: the output's page sequence is a function of the inputs
alone — two runs on the same request, whatever identifiers the
environment generates and whatever removals fail, produce the same page
sequence (the serialized bytes, which carry the generated output id, may
differ). -/
theorem merge_pages_deterministic (e1 e2 : Env) (req : MergeRequest) :
    pagesOf (handleMerge e1 req).1 = pagesOf (handleMerge e2 req).1 := by
  unfold handleMerge
  cases h : req.files.isEmpty with
  | true => simp [h]
  | false =>
    simp only [h]
    cases hp : parseOrderArray req.order with
    | error e => simp [pagesOf]
    | ok ids =>
      cases hm : mergeLoop (allFiles ids req.files) with
      | error e => simp [hm, pagesOf]
      | ok pages => simp [hm, pagesOf]

/-- Claim C8: cleanup is best-effort — removal failures are swallowed.
For any two failure oracles the handler returns the same response and
issues the same storage events up to the recorded removal outcomes, and
a cleanup loop always attempts every artifact exactly once in order. -/
theorem cleanup_best_effort_independent (f1 f2 : String → Bool) (uid : String)
    (req : MergeRequest) (files : List UploadedFile) :
    (cleanupLoop f1 files).map shapeOf = files.map (fun f => EventShape.attempt f.path)
    ∧ (handleMerge ⟨uid, f1⟩ req).1 = (handleMerge ⟨uid, f2⟩ req).1
    ∧ (handleMerge ⟨uid, f1⟩ req).2.map shapeOf =
        (handleMerge ⟨uid, f2⟩ req).2.map shapeOf := by
  refine ⟨cleanupLoop_shape f1 files, ?_, ?_⟩ <;>
  · unfold handleMerge
    cases h : req.files.isEmpty with
    | true => simp [h]
    | false =>
      simp only [h]
      cases hp : parseOrderArray req.order with
      | error e => simp [cleanupLoop_shape]
      | ok ids =>
        cases hm : mergeLoop (allFiles ids req.files) with
        | error e => simp [hm, cleanupLoop_shape]
        | ok pages => simp [hm, cleanupLoop_shape]

/-- Claim C4 (code bug): for the 200 by 100 PNG with no DPI metadata, the
normalizer's page is 72 by 72 points — not 200 by 100 as specified.  In
`metadata.width * 72 / metadata.density || 72` the division binds tighter
than `||`, so an undefined density makes the quotient NaN and the whole
expression falls back to 72 regardless of the pixel dimensions.  The
image is still drawn at the origin spanning the full (wrong) page. -/
theorem image_page_size_72_when_density_missing :
    imageToPdf "uploads/temp/cc-scan.png" ⟨200, 100, none⟩ =
      ⟨JSNum.val 72, JSNum.val 72, 0, 0, JSNum.val 72, JSNum.val 72, Codec.png⟩
    ∧ (imageToPdf "uploads/temp/cc-scan.png" ⟨200, 100, none⟩).pageWidth ≠ JSNum.val 200 := by
  decide

/-- Counterexample to claim C2: with uploads stored as `aa-x.pdf` and
`aab-y.pdf` and the descriptor `["aa"]`, the entry matches the first file,
while the second file is also prefix-matched and therefore excluded from
the remainder — so it is dropped from the resolved sequence. -/
theorem ordering_drops_shadowed_file :
    fileShadowed ∈ ([fileA, fileShadowed] : List UploadedFile)
    ∧ fileShadowed ∉ allFiles ["aa"] [fileA, fileShadowed] := by
  decide

/-- Counterexample to claim C5: a malformed `order` body field makes
`JSON.parse` throw, so the request fails with a 500 response instead of
being treated as an empty descriptor; the same request with the
descriptor absent succeeds. -/
theorem malformed_order_fails_request :
    (handleMerge envU ⟨.malformed "oops", [fileA]⟩).1 =
      Response.serverError "Unexpected token in JSON: oops"
    ∧ (handleMerge envU ⟨.absent, [fileA]⟩).1 =
      Response.success "uploads/merged-U.pdf" [Page.fromPdf 10] := by
  decide

/-- Counterexample to claim C6: in the shadowed-descriptor request the
second upload is dropped from the resolved sequence, the merge succeeds,
and the success-path cleanup iterates over the resolved sequence only —
so no remove is ever issued for the dropped upload's temp file. -/
theorem cleanup_misses_shadowed_upload :
    fileShadowed ∈ reqShadow.files
    ∧ (handleMerge envU reqShadow).1 =
        Response.success "uploads/merged-U.pdf" [Page.fromPdf 10]
    ∧ (∀ b, StoreEvent.removeAttempt fileShadowed.path b ∉ (handleMerge envU reqShadow).2) := by
  decide

/-- A file whose content matches its branch is processed into exactly its
contributed run of pages. -/
theorem processFile_eq_of_wellFormed (f : UploadedFile) (h : wellFormed f = true) :
    processFile f = .ok (contributedRun f) := by
  unfold wellFormed at h
  unfold processFile contributedRun
  cases hb : branchOf f <;> cases hc : f.content <;> simp [hb, hc] at h ⊢

/-- A file's contributed run has exactly its input page count. -/
theorem contributedRun_length (f : UploadedFile) :
    (contributedRun f).length = inputPageCount f := by
  unfold contributedRun inputPageCount
  cases f.content <;> simp

/-- Claim C1: on a resolved sequence of well-formed inputs, the merge
loop succeeds and the output's pages are exactly the concatenation of
each input's contributed run, in sequence order — each input PDF a
contiguous block of its own pages in their original order with content
preserved, each image one normalized page — so the output page count is
the sum of the inputs' page counts. -/
theorem merge_engine_concatenates_pages (seq : List UploadedFile)
    (h : ∀ f ∈ seq, wellFormed f = true) :
    mergeLoop seq = .ok ((seq.map contributedRun).flatten)
    ∧ ((seq.map contributedRun).flatten).length = (seq.map inputPageCount).sum := by
  constructor
  · induction seq with
    | nil => simp [mergeLoop]
    | cons f fs ih =>
      have hf := processFile_eq_of_wellFormed f (h f (List.mem_cons_self f fs))
      have ihs := ih (fun g hg => h g (List.mem_cons_of_mem f hg))
      simp [mergeLoop, hf, ihs]
  · induction seq with
    | nil => simp
    | cons f fs ih =>
      have ihs := ih (fun g hg => h g (List.mem_cons_of_mem f hg))
      simp [contributedRun_length f, ihs]

/-- Witness for claim C1 at a concrete sequence: a two-page PDF followed
by an image merges into the PDF's two pages then the normalized image
page, three pages in all. -/
theorem merge_engine_concatenates_pages_witness :
    mergeLoop [fileShadowed, fileImage] =
      .ok (([fileShadowed, fileImage].map contributedRun).flatten)
    ∧ (([fileShadowed, fileImage].map contributedRun).flatten).length =
        ([fileShadowed, fileImage].map inputPageCount).sum :=
  merge_engine_concatenates_pages [fileShadowed, fileImage] (by decide)

/-- Every error raised by processing names the file's original filename. -/
theorem processFile_error_names (f : UploadedFile) (e : JsError)
    (h : processFile f = .error e) : e = .processFailed f.originalname := by
  unfold processFile at h
  cases hb : branchOf f <;> rw [hb] at h <;> cases hc : f.content <;> rw [hc] at h <;>
    first
      | (injection h with h2; exact h2.symm)
      | cases h

/-- If some file of the sequence fails to process, the merge loop fails
with the error of the first such file. -/
theorem mergeLoop_error_of_exists (l : List UploadedFile)
    (hx : ∃ f ∈ l, exceptOk (processFile f) = false) :
    ∃ g ∈ l, exceptOk (processFile g) = false
      ∧ mergeLoop l = .error (.processFailed g.originalname) := by
  induction l with
  | nil => obtain ⟨f, hf, _⟩ := hx; cases hf
  | cons f fs ih =>
    cases hp : processFile f with
    | error e =>
      refine ⟨f, List.mem_cons_self f fs, by rw [hp]; rfl, ?_⟩
      rw [processFile_error_names f e hp] at hp
      simp [mergeLoop, hp]
    | ok ps =>
      obtain ⟨f0, hf0, hbad⟩ := hx
      have hf0fs : f0 ∈ fs := by
        rcases List.mem_cons.mp hf0 with he | hm
        · rw [he, hp] at hbad; cases hbad
        · exact hm
      obtain ⟨g, hg, hgbad, hm⟩ := ih ⟨f0, hf0fs, hbad⟩
      exact ⟨g, List.mem_cons_of_mem f hg, hgbad, by simp [mergeLoop, hp, hm]⟩

/-- Membership in the resolved sequence comes from the received files. -/
theorem mem_files_of_mem_sorted (ids : List String) (files : List UploadedFile)
    (f : UploadedFile) (h : f ∈ sortedFiles ids files) : f ∈ files := by
  unfold sortedFiles at h
  obtain ⟨a, ha, hfa⟩ := List.mem_filterMap.mp h
  obtain ⟨id, _, hfind⟩ := List.mem_map.mp ha
  exact List.mem_of_find?_eq_some (hfind.trans hfa)

/-- Membership in the resolved sequence comes from the received files. -/
theorem mem_files_of_mem_allFiles (ids : List String) (files : List UploadedFile)
    (f : UploadedFile) (h : f ∈ allFiles ids files) : f ∈ files := by
  unfold allFiles at h
  rcases List.mem_append.mp h with h | h
  · exact mem_files_of_mem_sorted ids files f h
  · exact (List.mem_filter.mp h).1

/-- Claim C3: if any file of the resolved sequence cannot be processed,
the whole request fails — there is a first failing file, the response is
the 500 error naming its original filename, and the event trace holds
only removal attempts (nothing is written, nothing streamed, so zero
output pages reach the caller). -/
theorem merge_fails_fast_on_bad_file (env : Env) (req : MergeRequest) (ids : List String)
    (hord : parseOrderArray req.order = .ok ids)
    (f : UploadedFile) (hf : f ∈ allFiles ids req.files)
    (hbad : exceptOk (processFile f) = false) :
    ∃ g ∈ allFiles ids req.files, exceptOk (processFile g) = false
      ∧ (handleMerge env req).1 =
          Response.serverError ("Failed to process " ++ g.originalname)
      ∧ (∀ ev ∈ (handleMerge env req).2, ∃ p b, ev = StoreEvent.removeAttempt p b) := by
  obtain ⟨g, hg, hgbad, hm⟩ := mergeLoop_error_of_exists _ ⟨f, hf, hbad⟩
  have hne : req.files.isEmpty = false := by
    have := mem_files_of_mem_allFiles ids req.files f hf
    cases hfl : req.files with
    | nil => rw [hfl] at this; cases this
    | cons a l => rfl
  refine ⟨g, hg, hgbad, ?_, ?_⟩
  · unfold handleMerge
    simp [hne, hord, hm, errorMessage]
  · unfold handleMerge
    simp only [hne, hord, hm]
    intro ev hev
    simp only [Bool.false_eq_true, if_false] at hev
    obtain ⟨x, _, hx⟩ := List.mem_map.mp hev
    exact ⟨x.path, _, hx.symm⟩

/-- Witness for claim C3 at a concrete request: a corrupt PDF between two
good files makes the whole merge fail with the error naming it. -/
theorem merge_fails_fast_on_bad_file_witness :
    ∃ g ∈ allFiles [] [fileA, fileCorrupt, fileImage],
      exceptOk (processFile g) = false
      ∧ (handleMerge envU ⟨.absent, [fileA, fileCorrupt, fileImage]⟩).1 =
          Response.serverError ("Failed to process " ++ g.originalname)
      ∧ (∀ ev ∈ (handleMerge envU ⟨.absent, [fileA, fileCorrupt, fileImage]⟩).2,
          ∃ p b, ev = StoreEvent.removeAttempt p b) :=
  merge_fails_fast_on_bad_file envU ⟨.absent, [fileA, fileCorrupt, fileImage]⟩ []
    rfl fileCorrupt (by decide) (by decide)

/-- Claim C5 as amended: ordering resolution is total and deterministic
for an absent/empty descriptor and for any well-formed array descriptor
(unmatched entries are silently ignored inside `allFiles`), but a
malformed descriptor — JSON that fails to parse, or JSON that is not an
array — makes the request fail with a 500 response instead of being
treated as an empty sequence. -/
theorem order_parse_totality (env : Env) (files : List UploadedFile)
    (l : List String) (s : String) (hne : files ≠ []) :
    resolveOrdering .absent files = .ok (allFiles [] files)
    ∧ resolveOrdering (.ids l) files = .ok (allFiles l files)
    ∧ (handleMerge env ⟨.malformed s, files⟩).1 =
        Response.serverError (errorMessage (.jsonError s))
    ∧ (handleMerge env ⟨.nonArray, files⟩).1 =
        Response.serverError (errorMessage .typeError) := by
  have hie : files.isEmpty = false := by
    cases files with
    | nil => exact absurd rfl hne
    | cons a l => rfl
  refine ⟨rfl, rfl, ?_, ?_⟩ <;> simp [handleMerge, hie, parseOrderArray]

/-- Witness for the amended claim C5 at a concrete request. -/
theorem order_parse_totality_witness :
    resolveOrdering .absent [fileA] = .ok (allFiles [] [fileA])
    ∧ resolveOrdering (.ids ["aa"]) [fileA] = .ok (allFiles ["aa"] [fileA])
    ∧ (handleMerge envU ⟨.malformed "x", [fileA]⟩).1 =
        Response.serverError (errorMessage (.jsonError "x"))
    ∧ (handleMerge envU ⟨.nonArray, [fileA]⟩).1 =
        Response.serverError (errorMessage .typeError) :=
  order_parse_totality envU [fileA] ["aa"] "x" (by decide)

/-- Claim C6 as amended: on the error path a remove is attempted for
every accepted upload's temp file; on the success path a remove is
attempted for every file of the resolved sequence (not necessarily every
accepted upload) and the removal of the produced output is scheduled. -/
theorem cleanup_on_all_exit_paths (env : Env) (req : MergeRequest) :
    (∀ msg, (handleMerge env req).1 = Response.serverError msg →
      ∀ f ∈ req.files,
        StoreEvent.removeAttempt f.path (!(env.removeFails f.path)) ∈ (handleMerge env req).2)
    ∧ (∀ out pages, (handleMerge env req).1 = Response.success out pages →
        ∃ seq, resolveOrdering req.order req.files = .ok seq
          ∧ (∀ f ∈ seq, StoreEvent.removeAttempt f.path (!(env.removeFails f.path)) ∈
              (handleMerge env req).2)
          ∧ StoreEvent.removeScheduled out ∈ (handleMerge env req).2) := by
  cases h : req.files.isEmpty with
  | true =>
    constructor
    · intro msg hmsg
      unfold handleMerge at hmsg
      simp [h] at hmsg
    · intro out pages hout
      unfold handleMerge at hout
      simp [h] at hout
  | false =>
    cases hp : parseOrderArray req.order with
    | error e =>
      have heq : handleMerge env req =
          (Response.serverError (errorMessage e), cleanupLoop env.removeFails req.files) := by
        unfold handleMerge
        simp [h, hp]
      rw [heq]
      constructor
      · intro msg hmsg f hf
        exact List.mem_map.mpr ⟨f, hf, rfl⟩
      · intro out pages hout
        cases hout
    | ok ids =>
      cases hm : mergeLoop (allFiles ids req.files) with
      | error e =>
        have heq : handleMerge env req =
            (Response.serverError (errorMessage e), cleanupLoop env.removeFails req.files) := by
          unfold handleMerge
          simp [h, hp, hm]
        rw [heq]
        constructor
        · intro msg hmsg f hf
          exact List.mem_map.mpr ⟨f, hf, rfl⟩
        · intro out pages hout
          cases hout
      | ok pages0 =>
        have heq : handleMerge env req =
            (Response.success (uploadsDir ++ "/merged-" ++ env.outputId ++ ".pdf") pages0,
              StoreEvent.write (uploadsDir ++ "/merged-" ++ env.outputId ++ ".pdf") ::
                (cleanupLoop env.removeFails (allFiles ids req.files) ++
                  [StoreEvent.removeScheduled
                    (uploadsDir ++ "/merged-" ++ env.outputId ++ ".pdf")])) := by
          unfold handleMerge
          simp [h, hp, hm]
        rw [heq]
        dsimp only
        constructor
        · intro msg hmsg
          cases hmsg
        · intro out pages hout
          cases hout
          refine ⟨allFiles ids req.files, by simp [resolveOrdering, hp], fun f hf => ?_, ?_⟩
          · refine List.mem_cons_of_mem _ (List.mem_append.mpr (Or.inl ?_))
            exact List.mem_map.mpr ⟨f, hf, rfl⟩
          · exact List.mem_cons_of_mem _
              (List.mem_append.mpr (Or.inr (List.mem_singleton.mpr rfl)))

/-- Witness for the amended claim C6: in the shadowed-descriptor request
the resolved-sequence file's temp removal and the output's scheduled
removal both appear in the success trace. -/
theorem cleanup_on_all_exit_paths_witness :
    StoreEvent.removeAttempt fileA.path true ∈ (handleMerge envU reqShadow).2
    ∧ StoreEvent.removeScheduled "uploads/merged-U.pdf" ∈ (handleMerge envU reqShadow).2 := by
  obtain ⟨seq, hseq, hall, hsched⟩ :=
    (cleanup_on_all_exit_paths envU reqShadow).2 "uploads/merged-U.pdf" [Page.fromPdf 10]
      (by decide)
  have hseq' : seq = [fileA] := by
    have : resolveOrdering reqShadow.order reqShadow.files = .ok [fileA] := by decide
    rw [this] at hseq
    injection hseq with h2
    exact h2.symm
  exact ⟨by have := hall fileA (by rw [hseq']; exact List.mem_singleton.mpr rfl); exact this,
    hsched⟩

/-- The resolved-sequence head part, rewritten as one `filterMap`. -/
theorem sortedFiles_eq_filterMap (order : List String) (files : List UploadedFile) :
    sortedFiles order files =
      order.filterMap (fun id => files.find? (fun f => matchesId f id)) := by
  unfold sortedFiles
  rw [List.filterMap_map]
  rfl

/-- A file matched by no descriptor identifier never appears in the
descriptor-ordered part. -/
theorem count_sorted_zero (order : List String) (files : List UploadedFile)
    (f : UploadedFile) (h : ∀ id ∈ order, matchesId f id = false) :
    (sortedFiles order files).count f = 0 := by
  rw [sortedFiles_eq_filterMap]
  induction order with
  | nil => rfl
  | cons id rest ih =>
    have hrest := ih (fun i hi => h i (List.mem_cons_of_mem id hi))
    cases hfind : files.find? (fun g => matchesId g id) with
    | none =>
      simp only [List.filterMap_cons, hfind]
      exact hrest
    | some g =>
      have hg0 := List.find?_some hfind
      have hg : matchesId g id = true := hg0
      have hfg : f ≠ g := by
        intro he
        rw [← he] at hg
        rw [h id (List.mem_cons_self id rest)] at hg
        cases hg
      simp only [List.filterMap_cons, hfind]
      rw [List.count_cons_of_ne hfg]
      exact hrest

/-- Under a one-to-one prefix matching, a matched file appears exactly
once in the descriptor-ordered part. -/
theorem count_sorted_one (order : List String) (files : List UploadedFile)
    (f : UploadedFile) (hmem : f ∈ files) (hnd : order.Nodup)
    (h1 : ∀ id ∈ order, ∀ g ∈ files, ∀ g' ∈ files,
        matchesId g id = true → matchesId g' id = true → g = g')
    (h2 : ∀ id ∈ order, ∀ id' ∈ order,
        matchesId f id = true → matchesId f id' = true → id = id')
    (hex : ∃ id ∈ order, matchesId f id = true) :
    (sortedFiles order files).count f = 1 := by
  rw [sortedFiles_eq_filterMap]
  induction order with
  | nil => obtain ⟨i, hi, _⟩ := hex; cases hi
  | cons id rest ih =>
    obtain ⟨hid_rest, hnd_rest⟩ := List.nodup_cons.mp hnd
    cases hmf : matchesId f id with
    | true =>
      have hsome : (files.find? (fun g => matchesId g id)).isSome :=
        List.find?_isSome.mpr ⟨f, hmem, hmf⟩
      obtain ⟨g, hfind⟩ := Option.isSome_iff_exists.mp hsome
      have hgmem : g ∈ files := List.mem_of_find?_eq_some hfind
      have hgm0 := List.find?_some hfind
      have hgm : matchesId g id = true := hgm0
      have hgf : g = f :=
        h1 id (List.mem_cons_self id rest) g hgmem f hmem hgm hmf
      have hnone : ∀ i ∈ rest, matchesId f i = false := by
        intro i hi
        cases hmi : matchesId f i with
        | false => rfl
        | true =>
          have hii : id = i :=
            h2 id (List.mem_cons_self id rest) i (List.mem_cons_of_mem id hi) hmf hmi
          rw [hii] at hid_rest
          exact absurd hi hid_rest
      have hz := count_sorted_zero rest files f hnone
      rw [sortedFiles_eq_filterMap] at hz
      simp only [List.filterMap_cons, hfind, hgf]
      rw [List.count_cons_self, hz]
    | false =>
      have hex' : ∃ i ∈ rest, matchesId f i = true := by
        obtain ⟨i, hi, hti⟩ := hex
        rcases List.mem_cons.mp hi with he | hm
        · rw [he] at hti
          rw [hmf] at hti
          cases hti
        · exact ⟨i, hm, hti⟩
      have ihres := ih hnd_rest
        (fun i hi => h1 i (List.mem_cons_of_mem id hi))
        (fun i hi i' hi' => h2 i (List.mem_cons_of_mem id hi) i' (List.mem_cons_of_mem id hi'))
        hex'
      cases hfind : files.find? (fun g => matchesId g id) with
      | none =>
        simp only [List.filterMap_cons, hfind]
        exact ihres
      | some g =>
        have hgm0 := List.find?_some hfind
        have hgm : matchesId g id = true := hgm0
        have hfg : f ≠ g := by
          intro he
          rw [← he] at hgm
          rw [hmf] at hgm
          cases hgm
        simp only [List.filterMap_cons, hfind]
        rw [List.count_cons_of_ne hfg]
        exact ihres

/-- Occurrences in the remainder: zero for a matched file, unchanged for
an unmatched one. -/
theorem count_remaining (order : List String) (files : List UploadedFile)
    (f : UploadedFile) :
    (remainingFiles order files).count f =
      if isMatched order f = true then 0 else files.count f := by
  unfold remainingFiles
  cases hm : isMatched order f with
  | true =>
    simp only [hm, if_pos]
    rw [List.count_eq_zero]
    intro hmem
    have h2 := (List.mem_filter.mp hmem).2
    rw [hm] at h2
    cases h2
  | false =>
    simp only [hm, Bool.false_eq_true, if_false]
    exact List.count_filter (by rw [hm]; rfl)

/-- Claim C2 as amended: when the prefix matching between descriptor
identifiers and received files is one-to-one — no identifier matches two
files, no file is matched by two identifiers, and both lists are free of
duplicates — the resolved sequence is a permutation of the received
files (every received file exactly once: no loss, no duplication), its
head part holds only descriptor-matched files, and its tail is exactly
the unmatched files in receipt order. -/
theorem ordering_resolution_exactly_once (order : List String) (files : List UploadedFile)
    (hfn : files.Nodup) (hon : order.Nodup)
    (h1 : ∀ id ∈ order, ∀ g ∈ files, ∀ g' ∈ files,
        matchesId g id = true → matchesId g' id = true → g = g')
    (h2 : ∀ f ∈ files, ∀ id ∈ order, ∀ id' ∈ order,
        matchesId f id = true → matchesId f id' = true → id = id') :
    List.Perm (allFiles order files) files
    ∧ (∀ f ∈ sortedFiles order files, isMatched order f = true)
    ∧ remainingFiles order files = files.filter (fun f => !(isMatched order f)) := by
  refine ⟨?_, ?_, rfl⟩
  · rw [List.perm_iff_count]
    intro a
    rw [allFiles, List.count_append, count_remaining]
    by_cases hmem : a ∈ files
    · cases hma : isMatched order a with
      | true =>
        have hex : ∃ id ∈ order, matchesId a id = true := List.any_eq_true.mp hma
        rw [count_sorted_one order files a hmem hon h1 (h2 a hmem) hex]
        simp [List.count_eq_one_of_mem hfn hmem]
      | false =>
        have hz : ∀ id ∈ order, matchesId a id = false := by
          intro i hi
          cases hmi : matchesId a i with
          | false => rfl
          | true =>
            have : isMatched order a = true := List.any_eq_true.mpr ⟨i, hi, hmi⟩
            rw [hma] at this
            cases this
        rw [count_sorted_zero order files a hz]
        simp
    · have hS : (sortedFiles order files).count a = 0 :=
        List.count_eq_zero.mpr (fun hc => hmem (mem_files_of_mem_sorted order files a hc))
      have hF : files.count a = 0 := List.count_eq_zero.mpr hmem
      rw [hS, hF]
      cases isMatched order a <;> simp
  · intro f hf
    rw [sortedFiles_eq_filterMap] at hf
    obtain ⟨id, hid, hfind⟩ := List.mem_filterMap.mp hf
    have hp0 := List.find?_some hfind
    exact List.any_eq_true.mpr ⟨id, hid, hp0⟩

/-- Witness for the amended claim C2 at a concrete one-to-one descriptor:
`["cc", "aa"]` over the uploads `aa-x.pdf` and `cc-scan.png`. -/
theorem ordering_resolution_exactly_once_witness :
    List.Perm (allFiles ["cc", "aa"] [fileA, fileImage]) [fileA, fileImage]
    ∧ (∀ f ∈ sortedFiles ["cc", "aa"] [fileA, fileImage],
        isMatched ["cc", "aa"] f = true)
    ∧ remainingFiles ["cc", "aa"] [fileA, fileImage] =
        [fileA, fileImage].filter (fun f => !(isMatched ["cc", "aa"] f)) :=
  ordering_resolution_exactly_once ["cc", "aa"] [fileA, fileImage]
    (by decide) (by decide) (by decide) (by decide)

/-- A scan keeping everything when every element passes. -/
theorem takeWhile_all_of {α : Type} (p : α → Bool) (xs : List α)
    (h : ∀ x ∈ xs, p x = true) : xs.takeWhile p = xs := by
  induction xs with
  | nil => rfl
  | cons a l ih =>
    rw [List.takeWhile_cons_of_pos (h a (List.mem_cons_self a l))]
    rw [ih (fun x hx => h x (List.mem_cons_of_mem a hx))]

/-- A scan passes an all-true block and continues behind it. -/
theorem takeWhile_append_all_of {α : Type} (p : α → Bool) (xs ys : List α)
    (h : ∀ x ∈ xs, p x = true) :
    (xs ++ ys).takeWhile p = xs ++ ys.takeWhile p := by
  induction xs with
  | nil => rfl
  | cons a l ih =>
    rw [List.cons_append, List.takeWhile_cons_of_pos (h a (List.mem_cons_self a l))]
    rw [ih (fun x hx => h x (List.mem_cons_of_mem a hx))]
    rfl

/-- A scan that fails inside the first block never reaches the second. -/
theorem takeWhile_append_stop_of {α : Type} (p : α → Bool) (xs ys : List α)
    (h : ∃ x ∈ xs, p x = false) :
    (xs ++ ys).takeWhile p = xs.takeWhile p := by
  induction xs with
  | nil => obtain ⟨x, hx, _⟩ := h; cases hx
  | cons a l ih =>
    cases hpa : p a with
    | false =>
      rw [List.cons_append, List.takeWhile_cons_of_neg (by simp [hpa])]
      rw [List.takeWhile_cons_of_neg (by simp [hpa])]
    | true =>
      have h2 : ∃ x ∈ l, p x = false := by
        obtain ⟨x, hx, hpx⟩ := h
        rcases List.mem_cons.mp hx with he | hm
        · rw [he, hpa] at hpx; cases hpx
        · exact ⟨x, hm, hpx⟩
      rw [List.cons_append, List.takeWhile_cons_of_pos hpa, List.takeWhile_cons_of_pos hpa]
      rw [ih h2]

/-- A scan that fails somewhere is strictly shorter than its input. -/
theorem takeWhile_length_lt_of {α : Type} (p : α → Bool) (xs : List α)
    (h : ∃ x ∈ xs, p x = false) :
    (xs.takeWhile p).length < xs.length := by
  induction xs with
  | nil => obtain ⟨x, hx, _⟩ := h; cases hx
  | cons a l ih =>
    cases hpa : p a with
    | false =>
      rw [List.takeWhile_cons_of_neg (by simp [hpa])]
      simp
    | true =>
      have h2 : ∃ x ∈ l, p x = false := by
        obtain ⟨x, hx, hpx⟩ := h
        rcases List.mem_cons.mp hx with he | hm
        · rw [he, hpa] at hpx; cases hpx
        · exact ⟨x, hm, hpx⟩
      rw [List.takeWhile_cons_of_pos hpa]
      simpa using ih h2

/-- A slash-free path is its own basename. -/
theorem basenameChars_eq_self (p : List Char) (h : ∀ c ∈ p, c ≠ '/') :
    basenameChars p = p := by
  unfold basenameChars
  have hall : ∀ c ∈ p.reverse, (c != '/') = true := by
    intro c hc
    simp [h c (List.mem_reverse.mp hc)]
  rw [takeWhile_all_of _ _ hall, List.reverse_reverse]

/-- The basename of a path is the slash-free part after the last slash. -/
theorem basenameChars_append (d b : List Char) (h : ∀ c ∈ b, c ≠ '/') :
    basenameChars (d ++ '/' :: b) = b := by
  unfold basenameChars
  rw [List.reverse_append, List.reverse_cons, List.append_assoc, List.singleton_append]
  have hall : ∀ c ∈ b.reverse, (c != '/') = true := by
    intro c hc
    simp [h c (List.mem_reverse.mp hc)]
  rw [takeWhile_append_all_of _ _ _ hall, List.takeWhile_cons_of_neg (by simp)]
  rw [List.append_nil, List.reverse_reverse]

/-- Leading directories do not affect the extension of a slash-free
basename. -/
theorem extnameChars_dir (d b : List Char) (h : ∀ c ∈ b, c ≠ '/') :
    extnameChars (d ++ '/' :: b) = extnameChars b := by
  unfold extnameChars
  rw [basenameChars_append d b h, basenameChars_eq_self b h]

/-- Prefixing a dot-free, slash-free identifier and a dash to a slash-free
filename whose basename does not start with a dot leaves Node's extension
unchanged. -/
theorem extnameChars_prefix_append (u n : List Char)
    (hud : ∀ c ∈ u, c ≠ '.')
    (hus : ∀ c ∈ u, c ≠ '/')
    (hns : ∀ c ∈ n, c ≠ '/')
    (hnh : ∀ c m, n = c :: m → c ≠ '.') :
    extnameChars (u ++ '-' :: n) = extnameChars n := by
  have hb1 : basenameChars (u ++ '-' :: n) = u ++ '-' :: n := by
    apply basenameChars_eq_self
    intro c hc
    rcases List.mem_append.mp hc with hcu | hcn
    · exact hus c hcu
    · rcases List.mem_cons.mp hcn with he | hm
      · rw [he]; decide
      · exact hns c hm
  have hb2 : basenameChars n = n := basenameChars_eq_self n hns
  unfold extnameChars
  rw [hb1, hb2]
  rw [List.reverse_append, List.reverse_cons, List.append_assoc, List.singleton_append]
  by_cases hdot : '.' ∈ n
  · obtain ⟨c, m, rfl⟩ : ∃ c m, n = c :: m := by
      cases n with
      | nil => cases hdot
      | cons c m => exact ⟨c, m, rfl⟩
    have hc : c ≠ '.' := hnh c m rfl
    have hdm : '.' ∈ m := by
      rcases List.mem_cons.mp hdot with he | hm
      · exact absurd he.symm hc
      · exact hm
    have hstop : ∃ x ∈ m.reverse, (x != '.') = false :=
      ⟨'.', List.mem_reverse.mpr hdm, by simp⟩
    rw [List.reverse_cons, List.append_assoc]
    rw [takeWhile_append_stop_of _ _ _ hstop, takeWhile_append_stop_of _ _ _ hstop]
    have hlt := takeWhile_length_lt_of (fun x => x != '.') m.reverse hstop
    rw [List.length_reverse] at hlt
    rw [if_neg (by simp [List.length_append]; omega)]
    rw [if_neg (by simp [List.length_append]; omega)]
    rw [if_neg (by simp [List.length_append]; omega)]
    rw [if_neg (by simp [List.length_append]; omega)]
  · have hall : ∀ x ∈ n.reverse, (x != '.') = true := by
      intro x hx
      have hxn : x ∈ n := List.mem_reverse.mp hx
      have : x ≠ '.' := fun he => hdot (he ▸ hxn)
      simp [this]
    have hallu : ∀ x ∈ u.reverse, (x != '.') = true := by
      intro x hx
      simp [hud x (List.mem_reverse.mp hx)]
    rw [takeWhile_append_all_of _ _ _ hall, List.takeWhile_cons_of_pos (by decide)]
    rw [takeWhile_all_of _ _ hallu, takeWhile_all_of _ _ hall]
    rw [if_pos (by simp [List.length_append]), if_pos rfl]

/-- The stored temp path `dir/uuid-originalname` has the same extension
as the original filename, for a dot-free slash-free uuid and a slash-free
filename not starting with a dot. -/
theorem extname_path_eq (dir uuid name : String)
    (hud : ∀ c ∈ uuid.data, c ≠ '.')
    (hus : ∀ c ∈ uuid.data, c ≠ '/')
    (hns : ∀ c ∈ name.data, c ≠ '/')
    (hnh : ∀ c m, name.data = c :: m → c ≠ '.') :
    extname (dir ++ "/" ++ uuid ++ "-" ++ name) = extname name := by
  unfold extname
  have hdata : (dir ++ "/" ++ uuid ++ "-" ++ name).data =
      dir.data ++ '/' :: (uuid.data ++ '-' :: name.data) := by
    simp [String.data_append, List.append_assoc]
  rw [hdata, extnameChars_dir dir.data (uuid.data ++ '-' :: name.data) (by
    intro c hc
    rcases List.mem_append.mp hc with hcu | hcn
    · exact hus c hcu
    · rcases List.mem_cons.mp hcn with he | hm
      · rw [he]; decide
      · exact hns c hm)]
  rw [extnameChars_prefix_append uuid.data name.data hud hus hns hnh]

/-- Claim C10: the PDF-versus-image branch is decided solely by the
lower-cased extension of the original filename (`.pdf` takes the PDF
branch), and the embedding codec solely by the lower-cased extension of
the stored path (`.png` embeds as PNG, anything else as JPEG), which
under multer's `uuid-originalname` naming equals the original filename's
extension; the declared MIME type plays no role in either dispatch. -/
theorem dispatch_by_extension_only (f : UploadedFile) (dir uuid : String)
    (hpath : f.path = dir ++ "/" ++ uuid ++ "-" ++ f.originalname)
    (hud : ∀ c ∈ uuid.data, c ≠ '.')
    (hus : ∀ c ∈ uuid.data, c ≠ '/')
    (hns : ∀ c ∈ f.originalname.data, c ≠ '/')
    (hnh : jsStartsWith f.originalname "." = false) :
    (branchOf f = Branch.pdf ↔ strToLower (extname f.originalname) = ".pdf")
    ∧ (∀ m, branchOf { f with mimetype := m } = branchOf f)
    ∧ embedCodecOf f.path =
        (if strToLower (extname f.originalname) = ".png" then Codec.png else Codec.jpg)
    ∧ (∀ m, embedCodecOf ({ f with mimetype := m }).path = embedCodecOf f.path) := by
  have hnh2 : ∀ c m, f.originalname.data = c :: m → c ≠ '.' := by
    intro c m hcm he
    unfold jsStartsWith at hnh
    rw [hcm] at hnh
    subst he
    simp [List.isPrefixOf] at hnh
  refine ⟨?_, fun m => rfl, ?_, fun m => rfl⟩
  · unfold branchOf
    by_cases hc : strToLower (extname f.originalname) = ".pdf"
    · simp [hc]
    · simp [hc]
  · unfold embedCodecOf
    rw [hpath, extname_path_eq dir uuid f.originalname hud hus hns hnh2]

/-- Witness for claim C10 at the concrete image upload: its stored path
`uploads/temp/cc-scan.png` selects the PNG codec exactly as the original
filename's extension does. -/
theorem dispatch_by_extension_only_witness :
    (branchOf fileImage = Branch.pdf ↔ strToLower (extname fileImage.originalname) = ".pdf")
    ∧ embedCodecOf fileImage.path =
        (if strToLower (extname fileImage.originalname) = ".png" then Codec.png
          else Codec.jpg) := by
  have h := dispatch_by_extension_only fileImage "uploads/temp" "cc"
    (by decide) (by decide) (by decide) (by decide) (by decide)
  exact ⟨h.1, h.2.2.1⟩

end PdfMerger
